import Mathlib

/-
Shallow embedding of the mc-ping crate's binary codec layer:

  * src/varint.rs    — the VarInt/VarLong structs, their conversions from and
                       to i32/i64, the stream reader and writer, and
                       `VarInt::size`;
  * src/packets.rs   — `ClientHandshake` and `ServerQueryResponse`;
  * src/connection.rs — `Connection::__read_status_packet`.

Machine integers are modelled by their unsigned bit patterns: an i32 is a
`Nat` below `2 ^ 32`, an i64 a `Nat` below `2 ^ 64`, a u8 a `Nat` below 256,
with the signed view recovered by `patInt`.  Fallible operations — in the
source these are panics (out-of-bounds indexing) or `io::Error`s — return
`Option` or `Except`.
-/

namespace McPing

/-- Unsigned pattern of `T::max_value() >> 6` for a signed `width`-bit integer
type `T`: the mask the source uses to turn the arithmetic right shift into a
logical one (src/varint.rs line 176). -/
def shrMask (width : Nat) : Nat := (2 ^ (width - 1) - 1) >>> 6

/-- Unsigned pattern of the Rust arithmetic right shift `n >> 7` of a signed
`width`-bit integer whose pattern is `p`: when the sign bit is set, the top
seven bits of the result are filled with ones. -/
def asr7 (width p : Nat) : Nat :=
  if p < 2 ^ (width - 1) then p >>> 7 else (p >>> 7) + (2 ^ width - 2 ^ (width - 7))

/-- Model of `(n >> 7) & ($conversation_type::max_value() >> 6)` from
`impl From<i32> for VarInt` / `impl From<i64> for VarLong`
(src/varint.rs line 176): sign-propagating shift followed by the mask. -/
def lshr7 (width p : Nat) : Nat := asr7 width p &&& shrMask width

/-- Byte groups emitted by the loop of `impl From<i32> for VarInt`
(src/varint.rs lines 166-188): take the low seven bits, shift by seven with
`lshr7`, set the continuation bit `0x80` when a nonzero value remains, stop
when the value is exhausted.  The fuel argument models the loop's
`ptr >= $size` bound. -/
def encodeGroups (width : Nat) : Nat → Nat → List Nat
  | _, 0 => []
  | p, fuel + 1 =>
    let n' := lshr7 width p
    let tmp := if n' ≠ 0 then (p &&& 127) ||| 128 else p &&& 127
    tmp :: (if n' = 0 then [] else encodeGroups width n' fuel)

/-- The source writes the groups into a pre-zeroed `[u8; $size]` array at
increasing indices; the untouched entries stay zero. -/
def padTo (size : Nat) (xs : List Nat) : List Nat :=
  xs ++ List.replicate (size - xs.length) 0

/-- The `VarInt` struct of src/varint.rs lines 60-63: a public five-byte
buffer (`pub inner: [u8; 5]`), here a list of byte patterns. -/
structure VarInt where
  inner : List Nat
deriving DecidableEq

/-- The `VarLong` struct of src/varint.rs lines 60-63 instantiated with ten
bytes (`pub inner: [u8; 10]`). -/
structure VarLong where
  inner : List Nat
deriving DecidableEq

/-- Unsigned `width`-bit pattern of the integer `v`. -/
def intPat (width : Nat) (v : Int) : Nat := (v % ((2 : Int) ^ width)).toNat

/-- Signed value of the unsigned `width`-bit pattern `p`. -/
def patInt (width : Nat) (p : Nat) : Int :=
  if p < 2 ^ (width - 1) then (p : Int) else (p : Int) - (2 : Int) ^ width

/-- Model of `VarInt::from(n: i32)` (src/varint.rs lines 166-188) acting on
the unsigned pattern of `n`. -/
def VarInt.fromI32pat (p : Nat) : VarInt := ⟨padTo 5 (encodeGroups 32 p 5)⟩

/-- Model of `VarLong::from(n: i64)` (src/varint.rs lines 166-188). -/
def VarLong.fromI64pat (p : Nat) : VarLong := ⟨padTo 10 (encodeGroups 64 p 10)⟩

/-- Model of `VarInt::from(n: i32)` on the signed value. -/
def VarInt.fromI32 (v : Int) : VarInt := VarInt.fromI32pat (intPat 32 v)

/-- Model of `VarLong::from(n: i64)` on the signed value. -/
def VarLong.fromI64 (v : Int) : VarLong := VarLong.fromI64pat (intPat 64 v)

/-- Loop of `impl From<VarInt> for i32` / `impl From<VarLong> for i64`
(src/varint.rs lines 151-164) over the byte list, with current index `ptr`
and accumulator pattern `ans`; each step ORs `(inner[ptr] & 0x7f) << (7*ptr)`
(truncated to the target width, as the Rust shift is) into `ans` and stops at
a byte with a clear continuation bit.  The loop has no bound: running off the
end of the list models the `v.inner[ptr]` out-of-bounds panic, hence the
`Option`. -/
def decodeGo (width : Nat) : List Nat → Nat → Nat → Option Nat
  | [], _, _ => none
  | b :: rest, ptr, ans =>
    let ans' := ans ||| (((b &&& 127) <<< (7 * ptr)) % 2 ^ width)
    if b &&& 128 = 0 then some ans' else decodeGo width rest (ptr + 1) ans'

/-- Model of `i32::from(v: VarInt)` on patterns; `none` is the panic. -/
def VarInt.toI32pat (v : VarInt) : Option Nat := decodeGo 32 v.inner 0 0

/-- Model of `i64::from(v: VarLong)` on patterns; `none` is the panic. -/
def VarLong.toI64pat (v : VarLong) : Option Nat := decodeGo 64 v.inner 0 0

/-- Model of `i32::from(v: VarInt)` (src/varint.rs lines 151-164): the signed
value, or `none` for the out-of-bounds panic. -/
def VarInt.toI32 (v : VarInt) : Option Int := v.toI32pat.map (patInt 32)

/-- Model of `i64::from(v: VarLong)` (src/varint.rs lines 151-164). -/
def VarLong.toI64 (v : VarLong) : Option Int := v.toI64pat.map (patInt 64)

/-- Loop of `write_var_int`/`write_var_long` (src/varint.rs lines 131-141):
emit the bytes of `inner` until a zero byte is met (excluded) or the array
ends. -/
def writeLoop : List Nat → List Nat
  | [] => []
  | b :: rest => if b = 0 then [] else b :: writeLoop rest

/-- Bytes written by `write_var_int`/`write_var_long` (src/varint.rs lines
127-148): the loop above, plus the single `0x00` byte written when the loop
emitted nothing (`ptr == 0`). -/
def writeVar (inner : List Nat) : List Nat :=
  match writeLoop inner with
  | [] => [0]
  | b :: rest => b :: rest

/-- Bytes that `write_var_int` (src/varint.rs lines 127-149) sends for `v`. -/
def write_var_int (v : VarInt) : List Nat := writeVar v.inner

/-- Bytes that `write_var_long` (src/varint.rs lines 127-149) sends for `v`. -/
def write_var_long (v : VarLong) : List Nat := writeVar v.inner

/-- Loop of `VarInt::size` (src/varint.rs lines 192-201): the index of the
first byte with a clear continuation bit, plus one; the array length when
every byte has the bit set. -/
def sizeGo : List Nat → Nat
  | [] => 0
  | b :: rest => if b &&& 128 = 0 then 1 else 1 + sizeGo rest

/-- Model of `VarInt::size` (src/varint.rs lines 192-201). -/
def VarInt.size (v : VarInt) : Nat := sizeGo v.inner

/-- The two error shapes of `read_var_int`/`read_var_long`: `eof` is the
`io::ErrorKind::UnexpectedEof` that `read_exact` returns at end of stream,
`tooLong` the `io::ErrorKind::InvalidData` "varint too long" error built at
src/varint.rs line 95. -/
inductive ReadErr where
  | eof
  | tooLong
deriving DecidableEq

/-- Loop of `read_var_int`/`read_var_long` (src/varint.rs lines 85-104) over
a stream modelled as the list of bytes still to be delivered.  Each step
consumes one byte (`read_exact(&mut buf)`); an empty stream is end of stream.
The second component of the result is the part of the stream not consumed. -/
def readVarGo (size : Nat) : List Nat → Nat → List Nat → Except ReadErr (List Nat) × List Nat
  | [], _, _ => (Except.error ReadErr.eof, [])
  | b :: rest, ptr, acc =>
    if size ≤ ptr then (Except.error ReadErr.tooLong, rest)
    else
      let acc' := acc.set ptr b
      if b &&& 128 = 0 then (Except.ok acc', rest) else readVarGo size rest (ptr + 1) acc'

/-- Model of `read_var_int` (src/varint.rs lines 85-104). -/
def read_var_int (stream : List Nat) : Except ReadErr VarInt × List Nat :=
  let r := readVarGo 5 stream 0 (List.replicate 5 0)
  (r.1.map VarInt.mk, r.2)

/-- Model of `read_var_long` (src/varint.rs lines 85-104). -/
def read_var_long (stream : List Nat) : Except ReadErr VarLong × List Nat :=
  let r := readVarGo 10 stream 0 (List.replicate 10 0)
  (r.1.map VarLong.mk, r.2)

/-- The `ClientHandshake` struct (src/packets.rs lines 16-30); the server
address is kept as its UTF-8 bytes. -/
structure ClientHandshake where
  len : VarInt
  packet_id : VarInt
  protocol_version : VarInt
  server_addr : List Nat
  server_port : Nat
  next_state : VarInt
deriving DecidableEq

/-- Model of `ClientHandshake::new` (src/packets.rs lines 36-64): packet id 0,
protocol version 768, next state 1, and the packet length computed from the
component sizes.  The `as i32` casts of the source truncate a `usize` to its
low 32 bits. -/
def ClientHandshake.new (server_addr : List Nat) (server_port : Nat) : ClientHandshake :=
  let packet_id := VarInt.fromI32pat 0
  let protocol_version := VarInt.fromI32pat 768
  let next_state := VarInt.fromI32pat 1
  let len_val :=
    packet_id.size + protocol_version.size +
      (VarInt.fromI32pat (server_addr.length % 2 ^ 32)).size + server_addr.length + 2 +
      next_state.size
  let len := VarInt.fromI32pat (len_val % 2 ^ 32)
  ⟨len, packet_id, protocol_version, server_addr, server_port, next_state⟩

/-- The helper `write_varint_bytes` inside `ClientHandshake::to_bytes`
(src/packets.rs lines 73-80): push the bytes of `inner` up to and including
the first byte whose continuation bit is clear. -/
def write_varint_bytes : List Nat → List Nat
  | [] => []
  | b :: rest => if b &&& 128 = 0 then [b] else b :: write_varint_bytes rest

/-- Model of `ClientHandshake::to_bytes` (src/packets.rs lines 69-103):
length, packet id, protocol version, the address as a VarInt length prefix
followed by its bytes, the port as two big-endian bytes (`(port >> 8) as u8`
and `port as u8`), and the next state. -/
def ClientHandshake.to_bytes (h : ClientHandshake) : List Nat :=
  write_varint_bytes h.len.inner ++
    write_varint_bytes h.packet_id.inner ++
    write_varint_bytes h.protocol_version.inner ++
    write_varint_bytes (VarInt.fromI32pat (h.server_addr.length % 2 ^ 32)).inner ++
    h.server_addr ++
    [(h.server_port >>> 8) % 256, h.server_port % 256] ++
    write_varint_bytes h.next_state.inner

/-- The `ServerQueryResponse` struct (src/packets.rs lines 141-151); the JSON
string is kept as its raw bytes (the source's lossy UTF-8 decoding does not
change their count). -/
structure ServerQueryResponse where
  len : VarInt
  packet_id : VarInt
  json_len : VarInt
  json : List Nat
deriving DecidableEq

/-- The helper `read_varint` inside `ServerQueryResponse::from`
(src/packets.rs lines 163-175), reading from `data[i..]` with no bound check:
`none` models its two possible panics, `data[i]` past the end of the slice
and `val.inner[i]` past the end of the five-byte array. -/
def read_varint_go : List Nat → Nat → List Nat → Option (List Nat × Nat)
  | [], _, _ => none
  | b :: rest, i, acc =>
    if 5 ≤ i then none
    else
      let acc' := acc.set i b
      if b &&& 128 = 0 then some (acc', i + 1) else read_varint_go rest (i + 1) acc'

/-- The helper `read_varint` of `ServerQueryResponse::from`: the parsed
`VarInt` and the number of bytes consumed, or `none` for a panic. -/
def read_varint (data : List Nat) : Option (VarInt × Nat) :=
  (read_varint_go data 0 (List.replicate 5 0)).map (fun r => (VarInt.mk r.1, r.2))

/-- Unsigned pattern of `v as usize` for an `i32` of pattern `p` on a 64-bit
target: the cast sign-extends. -/
def i32AsUsize (p : Nat) : Nat := if p < 2 ^ 31 then p else p + (2 ^ 64 - 2 ^ 32)

/-- Model of `ServerQueryResponse::from` (src/packets.rs lines 160-203): read
the length, packet id and JSON length VarInts, then slice
`&bytes[cursor..cursor + json_len]`.  `none` models a panic: an index out of
bounds inside `read_varint`, or the final slice running past the end of
`bytes`.  The 100 ms sleep of the source has no effect on the result. -/
def ServerQueryResponse.from_bytes (bytes : List Nat) : Option ServerQueryResponse := do
  let r1 ← read_varint bytes
  let r2 ← read_varint (bytes.drop r1.2)
  let r3 ← read_varint (bytes.drop (r1.2 + r2.2))
  let cursor := r1.2 + r2.2 + r3.2
  let jpat ← r3.1.toI32pat
  let jlen := i32AsUsize jpat
  if bytes.length < cursor + jlen then none
  else some ⟨r1.1, r2.1, r3.1, (bytes.drop cursor).take jlen⟩

/-- Model of `Connection::__read_status_packet` (src/connection.rs lines
290-301): a single `stream.read` into a `[0u8; 10_000]` buffer, then
`ServerQueryResponse::from` on exactly the bytes that this one read
delivered.  The argument is the chunk the transport handed to that single
read call. -/
def read_status_packet (firstRead : List Nat) : Option ServerQueryResponse :=
  ServerQueryResponse.from_bytes (firstRead.take 10000)

/-- Well-formedness of a VarInt/VarLong buffer: some byte has a clear
continuation bit, every byte before it has the bit set, and every byte after
it is zero. -/
def WellFormedVar (inner : List Nat) : Prop :=
  ∃ pre t post, inner = pre ++ t :: post ∧
    (∀ b ∈ pre, b &&& 128 ≠ 0) ∧ t &&& 128 = 0 ∧ ∀ b ∈ post, b = 0

/-! ### Arithmetic facts about the shift-and-mask encoding step -/

lemma shrMask_eq {width : Nat} (hw : 8 ≤ width) : shrMask width = 2 ^ (width - 7) - 1 := by
  have h1 : (2 : Nat) ^ (width - 1) = 2 ^ 6 * 2 ^ (width - 7) := by
    rw [← pow_add]
    congr 1
    omega
  have hM : 0 < (2 : Nat) ^ (width - 7) := Nat.two_pow_pos _
  unfold shrMask
  rw [Nat.shiftRight_eq_div_pow, h1]
  have h2 : 2 ^ 6 * 2 ^ (width - 7) - 1 = 2 ^ 6 * (2 ^ (width - 7) - 1) + 63 := by
    have h64 : (2 : Nat) ^ 6 = 64 := by norm_num
    omega
  rw [h2, Nat.mul_add_div (by norm_num)]
  norm_num

lemma lshr7_eq {width p : Nat} (hw : 8 ≤ width) (hp : p < 2 ^ width) :
    lshr7 width p = p / 128 := by
  have hmask := shrMask_eq hw
  have hww : (2 : Nat) ^ width = 2 ^ 7 * 2 ^ (width - 7) := by
    rw [← pow_add]
    congr 1
    omega
  have hdiv : p / 2 ^ 7 < 2 ^ (width - 7) := by
    apply Nat.div_lt_of_lt_mul
    calc p < 2 ^ width := hp
    _ = 2 ^ 7 * 2 ^ (width - 7) := hww
  have h128 : (2 : Nat) ^ 7 = 128 := by norm_num
  unfold lshr7 asr7
  rw [hmask]
  by_cases hs : p < 2 ^ (width - 1)
  · rw [if_pos hs, Nat.shiftRight_eq_div_pow, Nat.and_pow_two_sub_one_eq_mod,
      Nat.mod_eq_of_lt hdiv, h128]
  · rw [if_neg hs, Nat.shiftRight_eq_div_pow, Nat.and_pow_two_sub_one_eq_mod]
    have hsplit : (2 : Nat) ^ width - 2 ^ (width - 7) = (2 ^ 7 - 1) * 2 ^ (width - 7) := by
      have hM : 0 < (2 : Nat) ^ (width - 7) := Nat.two_pow_pos _
      have h2 := hww
      rw [h128] at h2
      rw [h128]
      omega
    rw [hsplit, Nat.add_mul_mod_self_right, Nat.mod_eq_of_lt hdiv, h128]

lemma and127_eq (a : Nat) : a &&& 127 = a % 128 := by
  have h := Nat.and_pow_two_sub_one_eq_mod a 7
  norm_num at h
  exact h

lemma or128_eq {a : Nat} (h : a < 128) : a ||| 128 = a + 128 := by
  have h' : a < 2 ^ 7 := by
    calc a < 128 := h
    _ = 2 ^ 7 := by norm_num
  have key := Nat.mul_add_lt_is_or h' 1
  rw [Nat.or_comm]
  norm_num at key
  omega

lemma and128_of_lt {a : Nat} (h : a < 128) : a &&& 128 = 0 := by
  have h' : a < 2 ^ 7 := by
    calc a < 128 := h
    _ = 2 ^ 7 := by norm_num
  have key := Nat.and_two_pow a 7
  rw [Nat.testBit_lt_two_pow h'] at key
  norm_num at key
  exact key

lemma and128_add {a : Nat} (h : a < 128) : (a + 128) &&& 128 ≠ 0 := by
  have key := Nat.and_two_pow (a + 128) 7
  have ht : (a + 128).testBit 7 = true := by
    rw [Nat.testBit_to_div_mod]
    have hd : (a + 128) / 2 ^ 7 = 1 := by
      have h2 : (2 : Nat) ^ 7 = 128 := by norm_num
      omega
    rw [hd]
    norm_num
  rw [ht] at key
  norm_num at key
  omega

lemma and127_add {a : Nat} (h : a < 128) : (a + 128) &&& 127 = a := by
  rw [and127_eq]
  omega

lemma lor_mul_pow {a d k : Nat} (h : a < 2 ^ k) : a ||| d * 2 ^ k = a + d * 2 ^ k := by
  calc a ||| d * 2 ^ k = d * 2 ^ k ||| a := Nat.or_comm _ _
  _ = 2 ^ k * d ||| a := by rw [Nat.mul_comm]
  _ = 2 ^ k * d + a := (Nat.mul_add_lt_is_or h d).symm
  _ = a + d * 2 ^ k := by ring

/-! ### Decoding inverts encoding -/

lemma decodeGo_encodeGroups (width : Nat) (hw : 8 ≤ width) :
    ∀ fuel q ptr ans rest, 0 < fuel → q < 128 ^ fuel →
      q * 2 ^ (7 * ptr) < 2 ^ width → ans < 2 ^ (7 * ptr) →
      decodeGo width (encodeGroups width q fuel ++ rest) ptr ans
        = some (ans + q * 2 ^ (7 * ptr)) := by
  intro fuel
  induction fuel with
  | zero => intro q ptr ans rest h0 _ _ _; exact absurd h0 (by omega)
  | succ n ih =>
    intro q ptr ans rest _ hq hfit hans
    have hP : 0 < (2 : Nat) ^ (7 * ptr) := Nat.two_pow_pos _
    have hqw : q < 2 ^ width := by
      calc q = q * 1 := by ring
      _ ≤ q * 2 ^ (7 * ptr) := Nat.mul_le_mul (le_refl q) hP
      _ < 2 ^ width := hfit
    have hshift : lshr7 width q = q / 128 := lshr7_eq hw hqw
    have hq127 : q &&& 127 = q % 128 := and127_eq q
    by_cases hsmall : q / 128 = 0
    · have hqlt : q < 128 := by omega
      have henc : encodeGroups width q (n + 1) = [q &&& 127] := by
        simp only [encodeGroups]
        rw [hshift]
        simp [hsmall]
      have hbyte : q &&& 127 = q := by rw [hq127]; omega
      rw [henc]
      simp only [List.cons_append, List.nil_append, decodeGo, hbyte]
      rw [if_pos (and128_of_lt hqlt)]
      congr 1
      rw [Nat.shiftLeft_eq, Nat.mod_eq_of_lt hfit]
      exact lor_mul_pow hans
    · have hqge : 128 ≤ q := by omega
      have hn : 0 < n := by
        rcases Nat.eq_zero_or_pos n with h | h
        · subst h
          rw [pow_one] at hq
          omega
        · exact h
      have henc : encodeGroups width q (n + 1)
          = ((q &&& 127) ||| 128) :: encodeGroups width (q / 128) n := by
        simp only [encodeGroups]
        rw [hshift]
        simp [hsmall]
      have hm : q % 128 < 128 := Nat.mod_lt _ (by norm_num)
      have hbyte : (q &&& 127) ||| 128 = q % 128 + 128 := by rw [hq127]; exact or128_eq hm
      rw [henc, hbyte]
      simp only [List.cons_append, decodeGo, List.append_eq]
      rw [and127_add hm, if_neg (and128_add hm)]
      have hfit' : q % 128 * 2 ^ (7 * ptr) < 2 ^ width := by
        calc q % 128 * 2 ^ (7 * ptr) ≤ q * 2 ^ (7 * ptr) :=
          Nat.mul_le_mul (Nat.mod_le q 128) (le_refl _)
        _ < 2 ^ width := hfit
      rw [Nat.shiftLeft_eq, Nat.mod_eq_of_lt hfit', lor_mul_pow hans]
      have hstep : (2 : Nat) ^ (7 * (ptr + 1)) = 2 ^ (7 * ptr) * 128 := by
        rw [show 7 * (ptr + 1) = 7 * ptr + 7 by ring, pow_add]
        norm_num
      have ihq : q / 128 < 128 ^ n := by
        apply Nat.div_lt_of_lt_mul
        rw [pow_succ] at hq
        omega
      have ihfit : q / 128 * 2 ^ (7 * (ptr + 1)) < 2 ^ width := by
        rw [hstep]
        calc q / 128 * (2 ^ (7 * ptr) * 128) = q / 128 * 128 * 2 ^ (7 * ptr) := by ring
        _ ≤ q * 2 ^ (7 * ptr) := Nat.mul_le_mul (Nat.div_mul_le_self q 128) (le_refl _)
        _ < 2 ^ width := hfit
      have ihans : ans + q % 128 * 2 ^ (7 * ptr) < 2 ^ (7 * (ptr + 1)) := by
        rw [hstep]
        have h127 : q % 128 * 2 ^ (7 * ptr) ≤ 127 * 2 ^ (7 * ptr) :=
          Nat.mul_le_mul (by omega) (le_refl _)
        omega
      rw [ih (q / 128) (ptr + 1) (ans + q % 128 * 2 ^ (7 * ptr)) rest hn ihq ihfit ihans]
      congr 1
      have hqd := Nat.div_add_mod q 128
      calc ans + q % 128 * 2 ^ (7 * ptr) + q / 128 * 2 ^ (7 * (ptr + 1))
          = ans + (128 * (q / 128) + q % 128) * 2 ^ (7 * ptr) := by rw [hstep]; ring
      _ = ans + q * 2 ^ (7 * ptr) := by rw [hqd]

lemma toI32pat_fromI32pat {p : Nat} (hp : p < 2 ^ 32) :
    (VarInt.fromI32pat p).toI32pat = some p := by
  unfold VarInt.fromI32pat VarInt.toI32pat padTo
  have h := decodeGo_encodeGroups 32 (by norm_num) 5 p 0 0
    (List.replicate (5 - (encodeGroups 32 p 5).length) 0) (by norm_num)
    (by calc p < 2 ^ 32 := hp
        _ ≤ 128 ^ 5 := by norm_num)
    (by simpa using hp) (by norm_num)
  simpa using h

lemma toI64pat_fromI64pat {p : Nat} (hp : p < 2 ^ 64) :
    (VarLong.fromI64pat p).toI64pat = some p := by
  unfold VarLong.fromI64pat VarLong.toI64pat padTo
  have h := decodeGo_encodeGroups 64 (by norm_num) 10 p 0 0
    (List.replicate (10 - (encodeGroups 64 p 10).length) 0) (by norm_num)
    (by calc p < 2 ^ 64 := hp
        _ ≤ 128 ^ 10 := by norm_num)
    (by simpa using hp) (by norm_num)
  simpa using h

/-! ### From bit patterns to signed values -/

lemma intPat_lt (width : Nat) (v : Int) : intPat width v < 2 ^ width := by
  unfold intPat
  have hpos : (0 : Int) < 2 ^ width := by positivity
  have h1 := Int.emod_nonneg v (ne_of_gt hpos)
  have h2 := Int.emod_lt_of_pos v hpos
  have hcast : ((2 ^ width : Nat) : Int) = 2 ^ width := by push_cast; ring
  omega

lemma patInt_intPat {width : Nat} (hw : 0 < width) {v : Int}
    (h1 : -(2 ^ (width - 1) : Int) ≤ v) (h2 : v < 2 ^ (width - 1)) :
    patInt width (intPat width v) = v := by
  unfold patInt intPat
  have hsplit : ((2 : Int) ^ width) = 2 * 2 ^ (width - 1) := by
    rw [← pow_succ']
    congr 1
    omega
  have hpos : (0 : Int) < 2 ^ width := by positivity
  have hc1 : ((2 ^ width : Nat) : Int) = 2 ^ width := by push_cast; ring
  have hc2 : ((2 ^ (width - 1) : Nat) : Int) = 2 ^ (width - 1) := by push_cast; ring
  rcases le_or_lt 0 v with hv | hv
  · have hmod : v % 2 ^ width = v := Int.emod_eq_of_lt hv (by omega)
    rw [hmod]
    have hlt : v.toNat < 2 ^ (width - 1) := by omega
    rw [if_pos hlt]
    omega
  · have ha : (v + 2 ^ width) % 2 ^ width = v % 2 ^ width := by
      simp
    have hb : (v + 2 ^ width) % 2 ^ width = v + 2 ^ width :=
      Int.emod_eq_of_lt (by omega) (by omega)
    have hmod : v % 2 ^ width = v + 2 ^ width := by rw [← ha]; exact hb
    rw [hmod]
    have hge : ¬((v + 2 ^ width).toNat < 2 ^ (width - 1)) := by omega
    rw [if_neg hge]
    omega

/-- C2: for every signed 32-bit integer `v`, decoding the VarInt encoding of
`v` yields `v` back (`i32::from(VarInt::from(v)) == v`), and for every signed
64-bit integer `w` the round-trip holds for VarLong; the shift-and-mask of
the encoder acts as a logical shift, so the extreme values round-trip too. -/
theorem varint_varlong_roundtrip (v w : Int)
    (hv1 : -(2 ^ 31) ≤ v) (hv2 : v < 2 ^ 31) (hw1 : -(2 ^ 63) ≤ w) (hw2 : w < 2 ^ 63) :
    (VarInt.fromI32 v).toI32 = some v ∧ (VarLong.fromI64 w).toI64 = some w := by
  constructor
  · unfold VarInt.fromI32 VarInt.toI32
    rw [toI32pat_fromI32pat (intPat_lt 32 v)]
    exact congrArg some (patInt_intPat (by norm_num) hv1 hv2)
  · unfold VarLong.fromI64 VarLong.toI64
    rw [toI64pat_fromI64pat (intPat_lt 64 w)]
    exact congrArg some (patInt_intPat (by norm_num) hw1 hw2)

/-- Witness for C2: the minimum i32 and i64 values round-trip. -/
theorem varint_varlong_roundtrip_witness :
    (VarInt.fromI32 (-(2 ^ 31))).toI32 = some (-(2 ^ 31)) ∧
      (VarLong.fromI64 (-(2 ^ 63))).toI64 = some (-(2 ^ 63)) :=
  varint_varlong_roundtrip (-(2 ^ 31)) (-(2 ^ 63)) (by norm_num) (by norm_num)
    (by norm_num) (by norm_num)

/-! ### Shape of the encoded groups: the write loop and the size loop -/

lemma encodeGroups_length_le (width : Nat) : ∀ fuel q, (encodeGroups width q fuel).length ≤ fuel := by
  intro fuel
  induction fuel with
  | zero => intro q; simp [encodeGroups]
  | succ n ih =>
    intro q
    simp only [encodeGroups]
    by_cases hz : lshr7 width q = 0
    · simp [hz]
    · simp only [hz, if_neg, ite_false, List.length_cons]
      have := ih (lshr7 width q)
      simp [hz]
      omega

lemma encodeGroups_nonzero {width : Nat} (hw : 8 ≤ width) :
    ∀ fuel q, q ≠ 0 → q < 2 ^ width → ∀ b ∈ encodeGroups width q fuel, b ≠ 0 := by
  intro fuel
  induction fuel with
  | zero => intro q _ _ b hb; simp [encodeGroups] at hb
  | succ n ih =>
    intro q hq0 hqw b hb
    have hshift : lshr7 width q = q / 128 := lshr7_eq hw hqw
    have hq127 : q &&& 127 = q % 128 := and127_eq q
    simp only [encodeGroups, hshift] at hb
    by_cases hsmall : q / 128 = 0
    · have hqlt : q < 128 := by omega
      simp [hsmall] at hb
      rw [hb, hq127]
      omega
    · have hm : q % 128 < 128 := Nat.mod_lt _ (by norm_num)
      simp [hsmall] at hb
      rcases hb with hb | hb
      · rw [hb, hq127, or128_eq hm]
        omega
      · exact ih (q / 128) hsmall (by omega) b hb

lemma writeLoop_append_nonzero :
    ∀ xs rest : List Nat, (∀ b ∈ xs, b ≠ 0) → writeLoop (xs ++ rest) = xs ++ writeLoop rest := by
  intro xs
  induction xs with
  | nil => intro rest _; simp
  | cons b tl ih =>
    intro rest h
    have hb : b ≠ 0 := h b (by simp)
    simp only [List.cons_append, writeLoop, if_neg hb, List.append_eq]
    rw [ih rest (fun x hx => h x (by simp [hx]))]

lemma writeLoop_replicate_zero (n : Nat) : writeLoop (List.replicate n 0) = [] := by
  cases n with
  | zero => rfl
  | succ m => simp [List.replicate, writeLoop]

lemma sizeGo_encodeGroups {width : Nat} (hw : 8 ≤ width) :
    ∀ fuel q rest, 0 < fuel → q < 128 ^ fuel → q < 2 ^ width →
      sizeGo (encodeGroups width q fuel ++ rest) = (encodeGroups width q fuel).length := by
  intro fuel
  induction fuel with
  | zero => intro q rest h0 _ _; exact absurd h0 (by omega)
  | succ n ih =>
    intro q rest _ hq hqw
    have hshift : lshr7 width q = q / 128 := lshr7_eq hw hqw
    have hq127 : q &&& 127 = q % 128 := and127_eq q
    by_cases hsmall : q / 128 = 0
    · have hqlt : q < 128 := by omega
      have henc : encodeGroups width q (n + 1) = [q &&& 127] := by
        simp only [encodeGroups]
        rw [hshift]
        simp [hsmall]
      have hclear : q &&& 127 &&& 128 = 0 := by
        rw [hq127]
        exact and128_of_lt (by omega)
      rw [henc]
      simp [sizeGo, hclear]
    · have hqge : 128 ≤ q := by omega
      have hn : 0 < n := by
        rcases Nat.eq_zero_or_pos n with h | h
        · subst h
          rw [pow_one] at hq
          omega
        · exact h
      have henc : encodeGroups width q (n + 1)
          = ((q &&& 127) ||| 128) :: encodeGroups width (q / 128) n := by
        simp only [encodeGroups]
        rw [hshift]
        simp [hsmall]
      have hm : q % 128 < 128 := Nat.mod_lt _ (by norm_num)
      have hset : (q &&& 127 ||| 128) &&& 128 ≠ 0 := by
        rw [hq127, or128_eq hm]
        exact and128_add hm
      have ihq : q / 128 < 128 ^ n := by
        apply Nat.div_lt_of_lt_mul
        rw [pow_succ] at hq
        omega
      rw [henc]
      simp only [List.cons_append, sizeGo, if_neg hset, List.length_cons, List.append_eq]
      rw [ih (q / 128) rest hn ihq (by omega)]
      omega

lemma writeVar_padTo_encode {width size : Nat} (hw : 8 ≤ width) {q : Nat}
    (hqw : q < 2 ^ width) (hs : 0 < size) :
    writeVar (padTo size (encodeGroups width q size)) = encodeGroups width q size := by
  by_cases hq0 : q = 0
  · subst hq0
    have hz : lshr7 width 0 = 0 / 128 := lshr7_eq hw (Nat.two_pow_pos width)
    have henc : encodeGroups width 0 size = [0] := by
      cases size with
      | zero => exact absurd hs (by omega)
      | succ n =>
        simp only [encodeGroups]
        rw [hz]
        simp
    rw [henc]
    cases size with
    | zero => exact absurd hs (by omega)
    | succ n =>
      simp [padTo, writeVar, writeLoop, writeLoop_replicate_zero]
  · have hnz := encodeGroups_nonzero hw size q hq0 hqw
    unfold padTo writeVar
    rw [writeLoop_append_nonzero _ _ hnz, writeLoop_replicate_zero, List.append_nil]
    have hne : encodeGroups width q size ≠ [] := by
      cases size with
      | zero => exact absurd hs (by omega)
      | succ n => simp only [encodeGroups]; simp
    cases hlist : encodeGroups width q size with
    | nil => exact absurd hlist hne
    | cons b tl => rfl

lemma write_fromI32pat_eq {p : Nat} (hp : p < 2 ^ 32) :
    write_var_int (VarInt.fromI32pat p) = encodeGroups 32 p 5 := by
  unfold write_var_int VarInt.fromI32pat
  exact writeVar_padTo_encode (by norm_num) hp (by norm_num)

lemma write_fromI64pat_eq {p : Nat} (hp : p < 2 ^ 64) :
    write_var_long (VarLong.fromI64pat p) = encodeGroups 64 p 10 := by
  unfold write_var_long VarLong.fromI64pat
  exact writeVar_padTo_encode (by norm_num) hp (by norm_num)

lemma size_fromI32pat_eq {p : Nat} (hp : p < 2 ^ 32) :
    (VarInt.fromI32pat p).size = (encodeGroups 32 p 5).length := by
  unfold VarInt.size VarInt.fromI32pat padTo
  exact sizeGo_encodeGroups (by norm_num) 5 p _ (by norm_num)
    (by calc p < 2 ^ 32 := hp
        _ ≤ 128 ^ 5 := by norm_num) hp

/-- C7: for every i32 `v` the bytes emitted when writing `VarInt::from(v)`
number at most 5 and exactly `VarInt::size()` of that value; for every i64
`w` written as a VarLong at most 10 bytes are emitted. -/
theorem write_length_le_and_size (v w : Int)
    (hv1 : -(2 ^ 31) ≤ v) (hv2 : v < 2 ^ 31) (hw1 : -(2 ^ 63) ≤ w) (hw2 : w < 2 ^ 63) :
    (write_var_int (VarInt.fromI32 v)).length ≤ 5 ∧
      (write_var_int (VarInt.fromI32 v)).length = (VarInt.fromI32 v).size ∧
      (write_var_long (VarLong.fromI64 w)).length ≤ 10 := by
  have hp := intPat_lt 32 v
  have hq := intPat_lt 64 w
  unfold VarInt.fromI32 VarLong.fromI64
  rw [write_fromI32pat_eq hp, write_fromI64pat_eq hq, size_fromI32pat_eq hp]
  exact ⟨encodeGroups_length_le 32 5 _, rfl, encodeGroups_length_le 64 10 _⟩

/-- Witness for C7 at `v = -1`, `w = -1`: the five- and ten-byte encodings. -/
theorem write_length_le_and_size_witness :
    (write_var_int (VarInt.fromI32 (-1))).length ≤ 5 ∧
      (write_var_int (VarInt.fromI32 (-1))).length = (VarInt.fromI32 (-1)).size ∧
      (write_var_long (VarLong.fromI64 (-1))).length ≤ 10 :=
  write_length_le_and_size (-1) (-1) (by norm_num) (by norm_num) (by norm_num) (by norm_num)

/-- C8: writing the VarInt encoding of 0 emits exactly the single byte 0x00,
and likewise for VarLong. -/
theorem write_zero_single_byte :
    write_var_int (VarInt.fromI32 0) = [0] ∧ write_var_long (VarLong.fromI64 0) = [0] := by
  constructor <;> rfl

lemma wellFormed_encode {width : Nat} (hw : 8 ≤ width) :
    ∀ fuel q zs, 0 < fuel → q < 128 ^ fuel → q < 2 ^ width → (∀ b ∈ zs, b = 0) →
      WellFormedVar (encodeGroups width q fuel ++ zs) := by
  intro fuel
  induction fuel with
  | zero => intro q zs h0 _ _ _; exact absurd h0 (by omega)
  | succ n ih =>
    intro q zs _ hq hqw hzs
    have hshift : lshr7 width q = q / 128 := lshr7_eq hw hqw
    have hq127 : q &&& 127 = q % 128 := and127_eq q
    by_cases hsmall : q / 128 = 0
    · have henc : encodeGroups width q (n + 1) = [q &&& 127] := by
        simp only [encodeGroups]
        rw [hshift]
        simp [hsmall]
      rw [henc]
      refine ⟨[], q &&& 127, zs, by simp, by simp, ?_, hzs⟩
      rw [hq127]
      exact and128_of_lt (by omega)
    · have hqge : 128 ≤ q := by omega
      have hn : 0 < n := by
        rcases Nat.eq_zero_or_pos n with h | h
        · subst h
          rw [pow_one] at hq
          omega
        · exact h
      have henc : encodeGroups width q (n + 1)
          = ((q &&& 127) ||| 128) :: encodeGroups width (q / 128) n := by
        simp only [encodeGroups]
        rw [hshift]
        simp [hsmall]
      have hm : q % 128 < 128 := Nat.mod_lt _ (by norm_num)
      have ihq : q / 128 < 128 ^ n := by
        apply Nat.div_lt_of_lt_mul
        rw [pow_succ] at hq
        omega
      obtain ⟨pre, t, post, heq, hpre, ht, hpost⟩ := ih (q / 128) zs hn ihq (by omega) hzs
      refine ⟨(q &&& 127 ||| 128) :: pre, t, post, ?_, ?_, ht, hpost⟩
      · rw [henc, List.cons_append, heq]
        exact (List.cons_append _ _ _).symm
      · intro b hb
        rcases List.mem_cons.mp hb with hb | hb
        · rw [hb, hq127, or128_eq hm]
          exact and128_add hm
        · exact hpre b hb

/-- C9: the buffer built by `VarInt::from(v)` is well formed — every byte
before the terminal group carries the continuation bit, the terminal group
byte does not, and everything after it is zero padding (likewise for
`VarLong::from(w)`); that padding is exactly what makes the write loop emit
`size()` bytes. -/
theorem fromInt_wellFormed (v w : Int)
    (hv1 : -(2 ^ 31) ≤ v) (hv2 : v < 2 ^ 31) (hw1 : -(2 ^ 63) ≤ w) (hw2 : w < 2 ^ 63) :
    WellFormedVar (VarInt.fromI32 v).inner ∧ WellFormedVar (VarLong.fromI64 w).inner ∧
      (write_var_int (VarInt.fromI32 v)).length = (VarInt.fromI32 v).size := by
  have hp := intPat_lt 32 v
  have hq := intPat_lt 64 w
  have hp5 : intPat 32 v < 128 ^ 5 := by
    calc intPat 32 v < 2 ^ 32 := hp
    _ ≤ 128 ^ 5 := by norm_num
  have hq10 : intPat 64 w < 128 ^ 10 := by
    calc intPat 64 w < 2 ^ 64 := hq
    _ ≤ 128 ^ 10 := by norm_num
  refine ⟨?_, ?_, ?_⟩
  case refine_3 =>
    unfold VarInt.fromI32
    rw [write_fromI32pat_eq hp, size_fromI32pat_eq hp]
  · unfold VarInt.fromI32 VarInt.fromI32pat padTo
    exact wellFormed_encode (by norm_num) 5 _ _ (by norm_num) hp5 hp
      (fun b hb => List.eq_of_mem_replicate hb)
  · unfold VarLong.fromI64 VarLong.fromI64pat padTo
    exact wellFormed_encode (by norm_num) 10 _ _ (by norm_num) hq10 hq
      (fun b hb => List.eq_of_mem_replicate hb)

/-- Witness for C9 at `v = 300`, `w = -1`. -/
theorem fromInt_wellFormed_witness :
    WellFormedVar (VarInt.fromI32 300).inner ∧ WellFormedVar (VarLong.fromI64 (-1)).inner ∧
      (write_var_int (VarInt.fromI32 300)).length = (VarInt.fromI32 300).size :=
  fromInt_wellFormed 300 (-1) (by norm_num) (by norm_num) (by norm_num) (by norm_num)

/-- C10: the conversion `i32::from(VarInt)` is partial on the public type: on
a buffer of five continuation bytes the loop runs past the end of the array
and panics (modelled by `none`); likewise `i64::from(VarLong)` on ten
continuation bytes. -/
theorem toInt_continuation_panics :
    VarInt.toI32 ⟨List.replicate 5 128⟩ = none ∧
      VarLong.toI64 ⟨List.replicate 10 128⟩ = none := by
  constructor <;> rfl

/-- Counterexample to C5 as stated: on six continuation bytes `read_var_int`
does fail with the "varint too long" error, but only after consuming six
bytes — one more than the maximum group count of five — and on a source of
exactly five continuation bytes it fails with the end-of-stream error of
`read_exact`, not the too-long error. -/
theorem read_var_consumption_counterexample :
    (read_var_int (List.replicate 6 128)).1 = Except.error ReadErr.tooLong ∧
      (List.replicate 6 128 : List Nat).length
          - (read_var_int (List.replicate 6 128)).2.length = 6 ∧
      (read_var_int (List.replicate 5 128)).1 = Except.error ReadErr.eof := by
  refine ⟨rfl, rfl, rfl⟩

/-- C5 (amended): when the first five bytes delivered by the source all
carry the continuation bit, `read_var_int` fails: with the "varint too long"
error after consuming a sixth byte when the source has one, and with the
end-of-stream error when the source ends after the five continuation bytes;
at most six bytes (one beyond the maximum group count) are consumed.  The
analogous statement holds for `read_var_long` with ten continuation bytes
and at most eleven consumed. -/
theorem read_var_continuation_fails
    (b0 b1 b2 b3 b4 : Nat) (rest : List Nat)
    (c0 c1 c2 c3 c4 c5 c6 c7 c8 c9 : Nat) (rl : List Nat)
    (hb0 : b0 &&& 128 ≠ 0) (hb1 : b1 &&& 128 ≠ 0) (hb2 : b2 &&& 128 ≠ 0)
    (hb3 : b3 &&& 128 ≠ 0) (hb4 : b4 &&& 128 ≠ 0)
    (hc0 : c0 &&& 128 ≠ 0) (hc1 : c1 &&& 128 ≠ 0) (hc2 : c2 &&& 128 ≠ 0)
    (hc3 : c3 &&& 128 ≠ 0) (hc4 : c4 &&& 128 ≠ 0) (hc5 : c5 &&& 128 ≠ 0)
    (hc6 : c6 &&& 128 ≠ 0) (hc7 : c7 &&& 128 ≠ 0) (hc8 : c8 &&& 128 ≠ 0)
    (hc9 : c9 &&& 128 ≠ 0) :
    (read_var_int (b0 :: b1 :: b2 :: b3 :: b4 :: rest)).1
        = Except.error (if rest = [] then ReadErr.eof else ReadErr.tooLong) ∧
      (b0 :: b1 :: b2 :: b3 :: b4 :: rest).length
          - (read_var_int (b0 :: b1 :: b2 :: b3 :: b4 :: rest)).2.length ≤ 6 ∧
      (read_var_long (c0 :: c1 :: c2 :: c3 :: c4 :: c5 :: c6 :: c7 :: c8 :: c9 :: rl)).1
        = Except.error (if rl = [] then ReadErr.eof else ReadErr.tooLong) ∧
      (c0 :: c1 :: c2 :: c3 :: c4 :: c5 :: c6 :: c7 :: c8 :: c9 :: rl).length
          - (read_var_long (c0 :: c1 :: c2 :: c3 :: c4 :: c5 :: c6 :: c7 :: c8 :: c9 :: rl)).2.length
        ≤ 11 := by
  refine ⟨?_, ?_, ?_, ?_⟩
  · cases rest <;> simp [read_var_int, readVarGo, Except.map, hb0, hb1, hb2, hb3, hb4]
  · cases rest <;> simp [read_var_int, readVarGo, hb0, hb1, hb2, hb3, hb4] <;> omega
  · cases rl <;>
      simp [read_var_long, readVarGo, Except.map, hc0, hc1, hc2, hc3, hc4, hc5, hc6, hc7, hc8, hc9]
  · cases rl <;>
      simp [read_var_long, readVarGo, hc0, hc1, hc2, hc3, hc4, hc5, hc6, hc7, hc8, hc9] <;>
      omega

/-- Witness for the amended C5: five continuation bytes followed by a sixth
byte give the too-long error. -/
theorem read_var_continuation_fails_witness :
    (read_var_int [128, 128, 128, 128, 128, 0]).1 = Except.error ReadErr.tooLong := by
  have h := (read_var_continuation_fails 128 128 128 128 128 [0]
      128 128 128 128 128 128 128 128 128 128 []
      (by decide) (by decide) (by decide) (by decide) (by decide)
      (by decide) (by decide) (by decide) (by decide) (by decide)
      (by decide) (by decide) (by decide) (by decide) (by decide)).1
  simpa using h

/-- Counterexample to C6 as stated: for address "127.0.0.1" (ASCII bytes
49 50 55 46 48 46 48 46 49) and port 25565 the serialized handshake is not
the claimed sequence: VarInt 768 encodes as 0x80 0x06 (not 0xC0 0x05, which
decodes to 704), and 25565 big-endian is 0x63 0xDD (0x63 0xCD is 25549). -/
theorem handshake_bytes_counterexample :
    (ClientHandshake.new [49, 50, 55, 46, 48, 46, 48, 46, 49] 25565).to_bytes ≠
      [0x10, 0x00, 0xC0, 0x05, 0x09, 49, 50, 55, 46, 48, 46, 48, 46, 49, 0x63, 0xCD, 0x01] := by
  decide

/-- C6 (amended): the handshake for "127.0.0.1", port 25565, default
protocol version 768 and next state 1 serializes to the length VarInt 0x10,
packet id 0x00, VarInt 768 as 0x80 0x06, string length 0x09 followed by the
ASCII bytes of "127.0.0.1", port 25565 big-endian as 0x63 0xDD, and 0x01. -/
theorem handshake_bytes :
    (ClientHandshake.new [49, 50, 55, 46, 48, 46, 48, 46, 49] 25565).to_bytes =
      [0x10, 0x00, 0x80, 0x06, 0x09, 49, 50, 55, 46, 48, 46, 48, 46, 49, 0x63, 0xDD, 0x01] := by
  decide

/-- C1: the status-response reader performs one single transport read and
parses only what that read returned, so the parse result depends on how the
transport fragments the bytes: the envelope 0x03 0x00 0x01 0x31 delivered
whole parses to the JSON byte 0x31, but when the first read returns only its
first byte 0x03 the parser panics (`none`) instead of looping for the
remaining declared bytes. -/
theorem read_status_packet_fragmented :
    (read_status_packet [3, 0, 1, 49]).map ServerQueryResponse.json = some [49] ∧
      read_status_packet [3] = none := by
  refine ⟨rfl, rfl⟩

/-- C3: an envelope declaring three body bytes of which only two arrive
makes `ServerQueryResponse::from` panic (`none`) — no `IncompletePacket`
error exists anywhere in the code — and an envelope declaring five body bytes
with only four present parses and is returned silently, because the declared
length is never compared with the bytes actually available. -/
theorem from_bytes_short_envelope :
    ServerQueryResponse.from_bytes [3, 0, 1] = none ∧
      (ServerQueryResponse.from_bytes [5, 0, 1, 49, 49]).map ServerQueryResponse.json
        = some [49] := by
  refine ⟨rfl, rfl⟩

set_option maxRecDepth 10000 in
/-- C4: decoding panics instead of returning a typed error on malformed
input: `ServerQueryResponse::from` of an empty slice indexes `data[0]` and
panics (`none`), and a payload whose JSON length VarInt declares 500 bytes
while only 300 are present dies on the out-of-range slice
`&bytes[cursor..cursor + 500]` rather than producing a `TruncatedString`
error (no such typed error exists in the code). -/
theorem from_bytes_truncated_panics :
    ServerQueryResponse.from_bytes [] = none ∧
      ServerQueryResponse.from_bytes ([175, 2, 0, 244, 3] ++ List.replicate 300 49) = none := by
  refine ⟨rfl, rfl⟩

end McPing
